import Mathlib

set_option linter.unusedVariables false

/-!
Verification model of the Tweakr client-side citation logic:
the citation annotators of src/lib/documentProcessor.ts and
src/hooks/annotateTextWithCitations.ts, the reference formatters and the
unique-reference counter of the same files, the accept/dismiss handlers of
src/app/QueryProvider.tsx, and the payment verification retry loop of
src/app/components/FlutterWaveButton.tsx.

Strings are modelled as lists of characters.  The sentence regex built by the
annotators (the escaped sentence, optionally with whitespace runs rewritten to
a flexible whitespace pattern, followed by an optional sentence-final
punctuation character, matched case-insensitively) is modelled semantically:
escaping makes every character of the sentence literal, so the compiled
pattern is a sequence of literal characters and whitespace-run tokens.
-/

abbrev Str : Type := List Char

/-- strL converts a Lean string literal into the list-of-characters model. -/
def strL (s : String) : Str := s.data

/-- isWsChar models the JavaScript whitespace class used by trim and by the
whitespace character class of the regex, restricted to the whitespace
characters that occur in document text. -/
def isWsChar (c : Char) : Bool :=
  c = ' ' || c = '\t' || c = '\n' || c = '\r'

/-- isPunctChar models the regex character class of sentence-final punctuation
consisting of the period, question mark and exclamation mark. -/
def isPunctChar (c : Char) : Bool :=
  c = '.' || c = '?' || c = '!'

/-- truthyS models JavaScript truthiness of an optional string: undefined and
the empty string are falsy, every other string is truthy. -/
def truthyS : Option Str → Bool
  | some (_ :: _) => true
  | _ => false

/-- jsTrimLeft drops leading whitespace, as the start half of
String.prototype.trim. -/
def jsTrimLeft (s : Str) : Str := s.dropWhile isWsChar

/-- jsTrimRight drops trailing whitespace, as String.prototype.trimEnd. -/
def jsTrimRight (s : Str) : Str := (s.reverse.dropWhile isWsChar).reverse

/-- jsTrim models String.prototype.trim. -/
def jsTrim (s : Str) : Str := jsTrimLeft (jsTrimRight s)

/-- upperS models String.prototype.toUpperCase character-wise. -/
def upperS (s : Str) : Str := s.map Char.toUpper

/-- lowerS models String.prototype.toLowerCase character-wise. -/
def lowerS (s : Str) : Str := s.map Char.toLower

/-- jsSplitChar models String.prototype.split with a one-character separator;
the result is always a nonempty list of segments. -/
def jsSplitChar (sep : Char) : Str → List Str
  | [] => [[]]
  | c :: rest =>
    let tail := jsSplitChar sep rest
    if c = sep then [] :: tail
    else
      match tail with
      | [] => [[c]]
      | seg :: segs => (c :: seg) :: segs

/-- lastSegD returns the last element of a segment list, as Array.prototype.pop
does on the always-nonempty result of split. -/
def lastSegD (l : List Str) : Str :=
  match l.getLast? with
  | some s => s
  | none => []

/-- PTok is one element of the compiled sentence pattern: a literal character
(the escape step of the annotators makes every sentence character literal,
and the case-insensitive flag compares them lowercased), or a whitespace-run
token standing for the flexible one-or-more-whitespace pattern. -/
inductive PTok : Type
  | lit (c : Char)
  | ws
deriving DecidableEq, Repr

/-- tokenizeAux compiles a sentence into pattern tokens, merging every
consecutive whitespace run into one run token; the flag records whether the
previous character was whitespace. -/
def tokenizeAux : Bool → Str → List PTok
  | _, [] => []
  | prevWs, c :: rest =>
    if isWsChar c then
      if prevWs then tokenizeAux true rest
      else PTok.ws :: tokenizeAux true rest
    else PTok.lit c :: tokenizeAux false rest

/-- tokenize compiles the pattern used by the documentProcessor annotator,
which rewrites every whitespace run of the escaped trimmed sentence into a
flexible whitespace match. -/
def tokenize (s : Str) : List PTok := tokenizeAux false s

/-- tokenizeExact compiles the pattern used by the hooks annotator, which
escapes and trims the sentence but keeps its whitespace literal. -/
def tokenizeExact (s : Str) : List PTok := s.map PTok.lit

/-- matchToks matches the compiled sentence pattern against the beginning of
the text, returning the consumed characters and the remainder.  A literal
token matches one character case-insensitively; a whitespace-run token
consumes a maximal nonempty whitespace run (the greedy quantifier; the pattern
character following a run is never whitespace). -/
def matchToks : List PTok → Str → Option (Str × Str)
  | [], t => some ([], t)
  | PTok.lit _ :: _, [] => none
  | PTok.lit c :: ps, x :: t =>
    if c.toLower = x.toLower then
      (matchToks ps t).map (fun mr => (x :: mr.1, mr.2))
    else none
  | PTok.ws :: _, [] => none
  | PTok.ws :: ps, x :: t =>
    if isWsChar x then
      (matchToks ps ((x :: t).dropWhile isWsChar)).map
        (fun mr => ((x :: t).takeWhile isWsChar ++ mr.1, mr.2))
    else none

/-- matchSentPunct matches the sentence pattern followed by the optional
sentence-final punctuation pattern, greedily consuming one punctuation
character when present. -/
def matchSentPunct (toks : List PTok) (t : Str) : Option (Str × Str) :=
  match matchToks toks t with
  | none => none
  | some (m, r) =>
    match r with
    | [] => some (m, [])
    | p :: r2 => if isPunctChar p then some (m ++ [p], r2) else some (m, p :: r2)

/-- hasMatchAnywhere decides whether the sentence-with-punctuation pattern
matches at some position of the text (including the end position, which a
global regex also tries). -/
def hasMatchAnywhere (toks : List PTok) : Str → Bool
  | [] => (matchSentPunct toks []).isSome
  | x :: t => (matchSentPunct toks (x :: t)).isSome || hasMatchAnywhere toks t

/-- goReplaceFuel models String.prototype.replace with a global regex: scan
left to right, replace every match with the image of the replacement callback,
resume after each match, advance one character over an empty match, and also
try the end-of-text position.  The fuel bounds the scan and is instantiated
with the length of the text. -/
def goReplaceFuel (toks : List PTok) (repl : Str → Str) : Nat → Str → Str
  | _, [] =>
    match matchSentPunct toks [] with
    | some (m, _) => repl m
    | none => []
  | 0, x :: t => x :: t
  | fuel + 1, x :: t =>
    match matchSentPunct toks (x :: t) with
    | some (m, r) =>
      if m.isEmpty then repl [] ++ x :: goReplaceFuel toks repl fuel t
      else repl m ++ goReplaceFuel toks repl fuel r
    | none => x :: goReplaceFuel toks repl fuel t

/-- replaceAllSent replaces every occurrence of the sentence pattern in the
text. -/
def replaceAllSent (toks : List PTok) (repl : Str → Str) (s : Str) : Str :=
  goReplaceFuel toks repl s.length s

/-- goFirstFuel models String.prototype.replace with the non-global hooks
regex whose group one is the sentence plus its optional punctuation, followed
by consumed trailing whitespace: only the first match is replaced, by group
one, a space, the parenthesised marker and a trailing space. -/
def goFirstFuel (toks : List PTok) (marker : Str) : Nat → Str → Str
  | _, [] =>
    match matchSentPunct toks [] with
    | some (g, _) => g ++ strL " (" ++ marker ++ strL ") "
    | none => []
  | 0, x :: t => x :: t
  | fuel + 1, x :: t =>
    match matchSentPunct toks (x :: t) with
    | some (g, r) => g ++ strL " (" ++ marker ++ strL ") " ++ r.dropWhile isWsChar
    | none => x :: goFirstFuel toks marker fuel t

/-- replaceFirstSent replaces the first occurrence of the hooks pattern. -/
def replaceFirstSent (toks : List PTok) (marker : Str) (s : Str) : Str :=
  goFirstFuel toks marker s.length s

/-- PaperDetails models the paper_details object of a citation; absent fields
are none. -/
structure PaperDetails : Type where
  authors : Option (List Str)
  year : Option Str
  title : Option Str
  url : Option Str
  doi : Option Str
deriving DecidableEq, Repr

/-- Citation models the citation objects consumed by the annotators and
formatters; only the fields those functions read are kept. -/
structure Citation : Type where
  original_sentence : Option Str
  paper_details : Option PaperDetails
  page_number : Option Str
deriving DecidableEq, Repr

/-- senLen models the sort key of both annotators: the length of the original
sentence, zero when the sentence is missing or empty. -/
def senLen (c : Citation) : Nat :=
  match c.original_sentence with
  | some s => s.length
  | none => 0

/-- longerFirst is the comparator ordering citations by descending original
sentence length, as the sort callback of both annotators. -/
def longerFirst (a b : Citation) : Prop := senLen b ≤ senLen a

instance : DecidableRel longerFirst :=
  fun a b => inferInstanceAs (Decidable (senLen b ≤ senLen a))

instance : IsTotal Citation longerFirst :=
  ⟨fun a b => Nat.le_total (senLen b) (senLen a)⟩

instance : IsTrans Citation longerFirst :=
  ⟨fun _ _ _ hab hbc => Nat.le_trans hbc hab⟩

/-- sortCitations models the stable JavaScript sort of the copied citation
array by descending sentence length, shared by both annotators. -/
def sortCitations (cs : List Citation) : List Citation :=
  List.insertionSort longerFirst cs

namespace DocumentProcessor

/-- authorLastName models the marker author of the documentProcessor
annotator: the last space-separated token of the first author when the authors
array is a nonempty array of strings, and Unknown otherwise. -/
def authorLastName (pd : PaperDetails) : Str :=
  match pd.authors with
  | some (a :: _) => lastSegD (jsSplitChar ' ' a)
  | _ => strL "Unknown"

/-- citationMarker models the inline marker, a parenthesised last name and
year, the year defaulting to n.d. when missing or empty. -/
def citationMarker (pd : PaperDetails) : Str :=
  strL "(" ++ authorLastName pd ++ strL ", "
    ++ (if truthyS pd.year then pd.year.getD [] else strL "n.d.") ++ strL ")"

/-- markerReplace models the replacement callback of the documentProcessor
annotator: strip one trailing punctuation character from the match when
present, trim trailing whitespace from the remaining content, and append a
space, the marker and the punctuation. -/
def markerReplace (marker : Str) (m : Str) : Str :=
  match m.getLast? with
  | some p =>
    if isPunctChar p then jsTrimRight m.dropLast ++ strL " " ++ marker ++ [p]
    else jsTrimRight m ++ strL " " ++ marker
  | none => jsTrimRight m ++ strL " " ++ marker

/-- applyCitation models one iteration of the forEach loop of the
documentProcessor annotator: skip a citation without a truthy sentence or
paper details, compile the escaped trimmed sentence with flexible whitespace
runs, and replace every match globally. -/
def applyCitation (text : Str) (c : Citation) : Str :=
  match c.original_sentence, c.paper_details with
  | some s, some pd =>
    if s = [] then text
    else replaceAllSent (tokenize (jsTrim s)) (markerReplace (citationMarker pd)) text
  | _, _ => text

/-- annotateTextWithCitation models the private annotator of
documentProcessor.ts: return the text unchanged when the text is empty or
there are no citations, otherwise sort the citations by descending sentence
length and apply each replacement in turn. -/
def annotateTextWithCitation (text : Str) (citations : List Citation) : Str :=
  if text = [] then text
  else if citations = [] then text
  else (sortCitations citations).foldl applyCitation text

end DocumentProcessor

namespace Hooks

/-- authorName models the marker author of the hooks annotator: the last
space-separated token of the first author when the authors array is nonempty,
and Unknown otherwise. -/
def authorName (pd : PaperDetails) : Str :=
  match pd.authors with
  | some (a :: _) => lastSegD (jsSplitChar ' ' a)
  | _ => strL "Unknown"

/-- jsUndef renders an optional string as JavaScript template interpolation
does: an undefined value prints as the text undefined. -/
def jsUndef (v : Option Str) : Str :=
  match v with
  | some s => s
  | none => strL "undefined"

/-- citationMarkerText models the marker content of the hooks annotator, the
author name and the year interpolated without a default. -/
def citationMarkerText (pd : PaperDetails) : Str :=
  authorName pd ++ strL ", " ++ jsUndef pd.year

/-- applyCitation models one iteration of the hooks annotator loop: skip a
citation without a truthy sentence or paper details, compile the escaped
trimmed sentence with its whitespace kept literal, and replace the first
match, keeping group one and appending the parenthesised marker and a
trailing space. -/
def applyCitation (text : Str) (c : Citation) : Str :=
  match c.original_sentence, c.paper_details with
  | some s, some pd =>
    if s = [] then text
    else replaceFirstSent (tokenizeExact (jsTrim s)) (citationMarkerText pd) text
  | _, _ => text

/-- annotateTextWithCitation models the exported annotator of the hooks
module: the same guard and descending-length sort as the documentProcessor
annotator, but with first-match replacement and post-punctuation marker
placement. -/
def annotateTextWithCitation (text : Str) (citations : List Citation) : Str :=
  if text = [] then text
  else if citations = [] then text
  else (sortCitations citations).foldl applyCitation text

end Hooks

/-! Reference formatting. -/

/-- RefPart models one child of a reference paragraph built by the
documentProcessor formatter: a text run with an italics flag, or an external
hyperlink carrying its display text and link target. -/
inductive RefPart : Type
  | run (text : Str) (italics : Bool)
  | hyper (text : Str) (link : Str)
deriving DecidableEq, Repr

/-- jsonQuote renders a JSON string literal; escaping inside the string is
irrelevant for the inputs considered. -/
def jsonQuote (s : Str) : Str := '"' :: s ++ ['"']

/-- jsonArr renders a JSON array of strings. -/
def jsonArr (l : List Str) : Str :=
  '[' :: List.intercalate (strL ",") (l.map jsonQuote) ++ [']']

/-- jsonField renders one key-value pair of a JSON object. -/
def jsonField (k : Str) (v : Str) : Str := jsonQuote k ++ ':' :: v

/-- jsonStringify models JSON.stringify on a paper details record whose fields
were set in declaration order, omitting undefined fields, as the fallback
deduplication key of the documentProcessor formatter. -/
def jsonStringify (pd : PaperDetails) : Str :=
  let fields :=
    (match pd.authors with
     | some l => [jsonField (strL "authors") (jsonArr l)]
     | none => []) ++
    (match pd.year with
     | some y => [jsonField (strL "year") (jsonQuote y)]
     | none => []) ++
    (match pd.title with
     | some t => [jsonField (strL "title") (jsonQuote t)]
     | none => []) ++
    (match pd.url with
     | some u => [jsonField (strL "url") (jsonQuote u)]
     | none => []) ++
    (match pd.doi with
     | some d => [jsonField (strL "doi") (jsonQuote d)]
     | none => [])
  '{' :: List.intercalate (strL ",") fields ++ ['}']

namespace DocumentProcessor

/-- refKey models the deduplication key of formatReferences: the doi, else the
url, else the title, else the JSON rendering of the paper details; the empty
string is falsy and falls through. -/
def refKey (pd : PaperDetails) : Str :=
  if truthyS pd.doi then pd.doi.getD []
  else if truthyS pd.url then pd.url.getD []
  else if truthyS pd.title then pd.title.getD []
  else jsonStringify pd

/-- PaperData is one value of the deduplication dictionary: the paper details
spread together with the page number taken from the first citation of the
paper, or from the first later citation that carries one. -/
structure PaperData : Type where
  details : PaperDetails
  page_number : Option Str
deriving DecidableEq, Repr

/-- lookupKey finds the value stored at a key of the insertion-ordered
dictionary. -/
def lookupKey (key : Str) : List (Str × PaperData) → Option PaperData
  | [] => none
  | (k, v) :: rest => if k = key then some v else lookupKey key rest

/-- updateValue rewrites the value stored at a key, keeping positions. -/
def updateValue (key : Str) (f : PaperData → PaperData) :
    List (Str × PaperData) → List (Str × PaperData)
  | [] => []
  | (k, v) :: rest =>
    if k = key then (k, f v) :: rest else (k, v) :: updateValue key f rest

/-- collectStep is the body of the forEach loop building the uniquePapersData
dictionary: the first citation of a paper stores its details and page number;
a later citation of the same key only fills a missing page number. -/
def collectStep (acc : List (Str × PaperData)) (c : Citation) : List (Str × PaperData) :=
  match c.paper_details with
  | none => acc
  | some pd =>
    let key := refKey pd
    match lookupKey key acc with
    | none => acc ++ [(key, ⟨pd, c.page_number⟩)]
    | some _ =>
      updateValue key
        (fun v =>
          if !truthyS v.page_number && truthyS c.page_number then
            ⟨v.details, c.page_number⟩
          else v)
        acc

/-- collectUnique models the uniquePapersData dictionary built by
formatReferences, in insertion order. -/
def collectUnique (citations : List Citation) : List (Str × PaperData) :=
  citations.foldl collectStep []

/-- refAuthorText models the author text of a reference entry: the authors
joined with commas when the array is nonempty, else Unknown Author. -/
def refAuthorText (pd : PaperDetails) : Str :=
  match pd.authors with
  | some (a :: rest) => List.intercalate (strL ", ") (a :: rest)
  | _ => strL "Unknown Author"

/-- refYearText models the year text, defaulting to n.d. -/
def refYearText (pd : PaperDetails) : Str :=
  if truthyS pd.year then pd.year.getD [] else strL "n.d."

/-- refTitleText models the title text, defaulting to Untitled. -/
def refTitleText (pd : PaperDetails) : Str :=
  if truthyS pd.title then pd.title.getD [] else strL "Untitled"

/-- refPageText models the page text, empty when the page number is falsy. -/
def refPageText (d : PaperData) : Str :=
  if truthyS d.page_number then strL "p. " ++ d.page_number.getD [] else []

/-- refSourceLink models the source link: a doi resolver link when the doi is
truthy, else the url field. -/
def refSourceLink (pd : PaperDetails) : Option Str :=
  if truthyS pd.doi then some (strL "https://doi.org/" ++ pd.doi.getD [])
  else pd.url

/-- formatEntry models one mapped entry of the documentProcessor
formatReferences switch for the uppercased style guide name; the default
branch repeats the APA branch verbatim, as the source does. -/
def formatEntry (styleGuide : Str) (d : PaperData) : List RefPart :=
  let pd := d.details
  let authorText := refAuthorText pd
  let yearText := refYearText pd
  let titleText := refTitleText pd
  let pageText := refPageText d
  let sourceLink := refSourceLink pd
  if upperS styleGuide = strL "APA" then
    [RefPart.run (authorText ++ strL " (" ++ yearText ++ strL "). ") false,
     RefPart.run titleText true,
     RefPart.run (strL ".") false]
    ++ (if pageText = [] then [] else [RefPart.run (strL " " ++ pageText ++ strL ".") false])
    ++ (match sourceLink with
        | some l => if l = [] then [] else [RefPart.run (strL " ") false, RefPart.hyper l l]
        | none => [])
  else if upperS styleGuide = strL "MLA" then
    [RefPart.run (authorText ++ strL ". \"" ++ titleText ++ strL ".\" " ++ yearText) false]
    ++ (if pageText = [] then [] else [RefPart.run (strL ", " ++ pageText) false])
    ++ [RefPart.run (strL ". Web. ") false]
    ++ (match sourceLink with
        | some l => if l = [] then [] else [RefPart.hyper l l]
        | none => [])
  else if upperS styleGuide = strL "CHICAGO" then
    [RefPart.run (authorText ++ strL ". \"" ++ titleText ++ strL ".\" " ++ yearText
        ++ (if pageText = [] then [] else strL ", " ++ pageText) ++ strL ".") false]
    ++ (match sourceLink with
        | some l =>
          if l = [] then []
          else [RefPart.run (strL " ") false, RefPart.hyper l l, RefPart.run (strL ".") false]
        | none => [])
  else
    [RefPart.run (authorText ++ strL " (" ++ yearText ++ strL "). ") false,
     RefPart.run titleText true,
     RefPart.run (strL ".") false]
    ++ (if pageText = [] then [] else [RefPart.run (strL " " ++ pageText ++ strL ".") false])
    ++ (match sourceLink with
        | some l => if l = [] then [] else [RefPart.run (strL " ") false, RefPart.hyper l l]
        | none => [])

/-- formatReferences models formatReferences of documentProcessor.ts: build
the deduplication dictionary and render one entry per unique paper, in
insertion order. -/
def formatReferences (citations : List Citation) (styleGuide : Str) : List (List RefPart) :=
  (collectUnique citations).map (fun kv => formatEntry styleGuide kv.2)

/-- countKey models the key used by getUniqueReferencesCount: the doi, else
the url, else the title, else the empty string. -/
def countKey (pd : PaperDetails) : Str :=
  if truthyS pd.doi then pd.doi.getD []
  else if truthyS pd.url then pd.url.getD []
  else if truthyS pd.title then pd.title.getD []
  else []

/-- addKey models adding one key to a JavaScript Set kept in insertion
order. -/
def addKey (acc : List Str) (k : Str) : List Str :=
  if k ∈ acc then acc else acc ++ [k]

/-- countStep is the body of the forEach loop of getUniqueReferencesCount:
skip citations without paper details and add the count key to the set. -/
def countStep (acc : List Str) (c : Citation) : List Str :=
  match c.paper_details with
  | none => acc
  | some pd => addKey acc (countKey pd)

/-- getUniqueReferencesCount models getUniqueReferencesCount: the size of the
set of count keys over the citations that carry paper details. -/
def getUniqueReferencesCount (citations : List Citation) : Nat :=
  (citations.foldl countStep []).length

end DocumentProcessor

namespace Hooks

/-- hooksKey models the deduplication key of the hooks formatter: the doi,
else the url, else the value of the title even when falsy; an undefined key
indexes the dictionary under the property name undefined. -/
def hooksKey (pd : PaperDetails) : Str :=
  if truthyS pd.doi then pd.doi.getD []
  else if truthyS pd.url then pd.url.getD []
  else
    match pd.title with
    | some t => t
    | none => strL "undefined"

/-- lookupKeyH finds the paper stored at a key of the hooks dictionary. -/
def lookupKeyH (key : Str) : List (Str × PaperDetails) → Option PaperDetails
  | [] => none
  | (k, v) :: rest => if k = key then some v else lookupKeyH key rest

/-- collectUniqueH models the uniquePapers dictionary of the hooks formatter:
the first citation of a key wins, in insertion order. -/
def collectUniqueH (citations : List Citation) : List (Str × PaperDetails) :=
  citations.foldl
    (fun acc c =>
      match c.paper_details with
      | none => acc
      | some pd =>
        let key := hooksKey pd
        match lookupKeyH key acc with
        | some _ => acc
        | none => acc ++ [(key, pd)])
    []

/-- formatAuthors models the author helper of the hooks formatter: Unknown for
an empty list, first author or first author with et al. for APA, and the
comma-joined list for HARVARD and for every other style. -/
def formatAuthors (authors : List Str) (style : Str) : Str :=
  if authors.length = 0 then strL "Unknown"
  else if style = strL "APA" then
    match authors with
    | [a] => a
    | a :: _ => a ++ strL " et al."
    | [] => strL "Unknown"
  else if style = strL "HARVARD" then List.intercalate (strL ", ") authors
  else List.intercalate (strL ", ") authors

/-- linkText models the interpolated link of a hooks reference line: a doi
resolver link when the doi is truthy, else the interpolated url. -/
def linkText (pd : PaperDetails) : Str :=
  if truthyS pd.doi then strL "https://doi.org/" ++ pd.doi.getD []
  else jsUndef pd.url

/-- apos is the apostrophe character used by the HARVARD template. -/
def apos : Char := Char.ofNat 39

/-- formatEntryH models one reference line of the hooks formatter for the
uppercased style guide name; the default branch repeats the APA template but
with the author text computed for the unrecognized style. -/
def formatEntryH (styleGuide : Str) (pd : PaperDetails) : Str :=
  let style := upperS styleGuide
  let authorText := formatAuthors (pd.authors.getD []) style
  if style = strL "APA" then
    authorText ++ strL " (" ++ jsUndef pd.year ++ strL "). *" ++ jsUndef pd.title
      ++ strL "*. " ++ linkText pd
  else if style = strL "HARVARD" then
    authorText ++ strL " (" ++ jsUndef pd.year ++ strL ") " ++ [apos]
      ++ jsUndef pd.title ++ [apos] ++ strL ", *Online*. Available at: "
      ++ linkText pd
  else if style = strL "MLA" then
    authorText ++ strL ". \"" ++ jsUndef pd.title ++ strL ".\" " ++ jsUndef pd.year
      ++ strL ". Web. " ++ linkText pd
  else if style = strL "CHICAGO" then
    authorText ++ strL ". \"" ++ jsUndef pd.title ++ strL ".\" " ++ jsUndef pd.year
      ++ strL ". " ++ linkText pd
  else
    authorText ++ strL " (" ++ jsUndef pd.year ++ strL "). *" ++ jsUndef pd.title
      ++ strL "*. " ++ linkText pd

/-- formatReferences models the hooks formatter: map the unique papers to
styled lines and join them with blank lines. -/
def formatReferences (citations : List Citation) (styleGuide : Str) : Str :=
  List.intercalate (strL "\n\n")
    ((collectUniqueH citations).map (fun kv => formatEntryH styleGuide kv.2))

end Hooks

/-! Dashboard accept and dismiss handlers of QueryProvider.tsx. -/

namespace Dashboard

/-- DashCitation keeps the only citation field the handlers compare, the
id. -/
structure DashCitation : Type where
  id : Str
deriving DecidableEq, Repr

/-- DashState is the pair of component states acceptedCitations and
dismissedCitations. -/
structure DashState : Type where
  accepted : List DashCitation
  dismissed : List DashCitation
deriving DecidableEq, Repr

/-- memId decides whether some citation of the list has the given id. -/
def memId (l : List DashCitation) (i : Str) : Bool :=
  l.any (fun a => a.id == i)

/-- handleAcceptCitation models the accept handler: append the citation unless
an accepted citation already has its id; the dismissed set is not
consulted. -/
def handleAcceptCitation (st : DashState) (c : DashCitation) : DashState :=
  if memId st.accepted c.id then st
  else ⟨st.accepted ++ [c], st.dismissed⟩

/-- handleDismissCitation models the dismiss handler: append the citation to
the dismissed list and filter its id out of the accepted list. -/
def handleDismissCitation (st : DashState) (c : DashCitation) : DashState :=
  ⟨st.accepted.filter (fun a => a.id != c.id), st.dismissed ++ [c]⟩

/-- DashOp is one user operation on the dashboard citation sets. -/
inductive DashOp : Type
  | accept (c : DashCitation)
  | dismiss (c : DashCitation)
deriving DecidableEq, Repr

/-- applyOp applies one operation to the state. -/
def applyOp (st : DashState) (op : DashOp) : DashState :=
  match op with
  | DashOp.accept c => handleAcceptCitation st c
  | DashOp.dismiss c => handleDismissCitation st c

/-- runOps runs a sequence of operations from the initial empty state. -/
def runOps (ops : List DashOp) : DashState :=
  ops.foldl applyOp ⟨[], []⟩

/-- disjointB decides that no accepted citation id is also a dismissed
citation id. -/
def disjointB (st : DashState) : Bool :=
  st.accepted.all (fun a => !memId st.dismissed a.id)

/-- guardedFrom decides that along the run every accepted citation has an id
that is not dismissed at the moment of acceptance; this is the situation the
dashboard UI maintains, since dismissed suggestions are filtered out of the
list offered for acceptance. -/
def guardedFrom (st : DashState) : List DashOp → Bool
  | [] => true
  | DashOp.accept c :: rest =>
    !memId st.dismissed c.id && guardedFrom (applyOp st (DashOp.accept c)) rest
  | DashOp.dismiss c :: rest => guardedFrom (applyOp st (DashOp.dismiss c)) rest

end Dashboard

/-! Payment verification retry loop of FlutterWaveButton.tsx. -/

namespace Payment

/-- VerifyResponse models the fields of the verification response that the
success test reads: the status at data.status, the status at
data.data.status, and the message at data.message. -/
structure VerifyResponse : Type where
  status : Option Str
  innerStatus : Option Str
  message : Option Str
deriving DecidableEq, Repr

/-- startsWithB decides whether the second string starts with the first. -/
def startsWithB : Str → Str → Bool
  | [], _ => true
  | _ :: _, [] => false
  | a :: as, b :: bs => a == b && startsWithB as bs

/-- includesB models String.prototype.includes. -/
def includesB (needle : Str) : Str → Bool
  | [] => startsWithB needle []
  | x :: t => startsWithB needle (x :: t) || includesB needle t

/-- isSuccess models the success test of verifyPaymentWithRetry: the outer
status equals success, or the inner status equals successful, or the
lowercased message contains success. -/
def isSuccess (r : VerifyResponse) : Bool :=
  r.status == some (strL "success")
  || r.innerStatus == some (strL "successful")
  || (match r.message with
      | some m => includesB (strL "success") (lowerS m)
      | none => false)

/-- RetryTrace is the observable outcome of the retry loop: the returned
boolean, the number of calls made to verifyAllPayment, and the list of waits
in milliseconds performed before attempts after the first. -/
structure RetryTrace : Type where
  result : Bool
  calls : Nat
  waits : List Nat
deriving DecidableEq, Repr

/-- oracleSucc tells whether the call of a given attempt returns a response
passing the success test; none models a thrown error. -/
def oracleSucc (oracle : Nat → Option VerifyResponse) (a : Nat) : Bool :=
  match oracle a with
  | some r => isSuccess r
  | none => false

/-- verifyLoop models the retry loop of verifyPaymentWithRetry, with the
oracle giving the outcome of the awaited call of each attempt: before every
attempt after the first it waits two thousand times the attempt number, a
successful response returns true at once, a final unsuccessful or throwing
attempt returns false, and an earlier failure falls through to the next
attempt. -/
def verifyLoop (oracle : Nat → Option VerifyResponse) (maxRetries : Nat) :
    Nat → Nat → RetryTrace
  | 0, _ => ⟨false, 0, []⟩
  | fuel + 1, attempt =>
    if attempt > maxRetries then ⟨false, 0, []⟩
    else if oracleSucc oracle attempt then
      ⟨true, 1, if attempt > 1 then [2000 * attempt] else []⟩
    else if attempt = maxRetries then
      ⟨false, 1, if attempt > 1 then [2000 * attempt] else []⟩
    else
      ⟨(verifyLoop oracle maxRetries fuel (attempt + 1)).result,
       (verifyLoop oracle maxRetries fuel (attempt + 1)).calls + 1,
       (if attempt > 1 then [2000 * attempt] else [])
         ++ (verifyLoop oracle maxRetries fuel (attempt + 1)).waits⟩

/-- defaultMaxRetries is the default value of the maxRetries parameter. -/
def defaultMaxRetries : Nat := 3

/-- verifyPaymentWithRetry runs the loop from attempt one. -/
def verifyPaymentWithRetry (oracle : Nat → Option VerifyResponse)
    (maxRetries : Nat) : RetryTrace :=
  verifyLoop oracle maxRetries maxRetries 1

/-- firstSuccess finds the least attempt number in the window that passes the
success test. -/
def firstSuccess (oracle : Nat → Option VerifyResponse) : Nat → Nat → Option Nat
  | _, 0 => none
  | attempt, fuel + 1 =>
    if oracleSucc oracle attempt then some attempt
    else firstSuccess oracle (attempt + 1) fuel

/-- waitsFor lists the waits performed over the attempts from lo to hi: two
thousand times each attempt number greater than one. -/
def waitsFor (lo hi : Nat) : List Nat :=
  ((List.range' lo (hi + 1 - lo)).filter (fun k => decide (1 < k))).map
    (fun k => 2000 * k)

end Payment

/-! Lemmas about trimming and pattern matching. -/

/-- NoTrail states that the string does not end in a whitespace character. -/
def NoTrail (s : Str) : Prop :=
  ∀ c, s.getLast? = some c → isWsChar c = false

theorem noTrail_nil : NoTrail [] := by
  intro c hc
  simp [List.getLast?] at hc

theorem jsTrimRight_eq_self {s : Str} (h : NoTrail s) : jsTrimRight s = s := by
  unfold jsTrimRight
  rcases hr : s.reverse with _ | ⟨c, w⟩
  · simp
    exact List.reverse_eq_nil_iff.mp hr
  · have hlast : s.getLast? = some c := by
      rw [← List.head?_reverse, hr]
      rfl
    have hws : isWsChar c = false := h c hlast
    rw [List.dropWhile_cons, hws]
    simp [← hr]

theorem length_jsTrim_le (s : Str) : (jsTrim s).length ≤ (jsTrimRight s).length := by
  unfold jsTrim jsTrimLeft
  exact ((jsTrimRight s).dropWhile_sublist isWsChar).length_le

theorem noTrail_of_jsTrim_eq {s : Str} (h : jsTrim s = s) : NoTrail s := by
  intro c hc
  by_contra hne
  have hws : isWsChar c = true := by
    cases hb : isWsChar c
    · exact absurd hb hne
    · rfl
  have hrev : s.reverse.head? = some c := by
    rw [List.head?_reverse]
    exact hc
  rcases hr : s.reverse with _ | ⟨d, w⟩
  · rw [hr] at hrev
    simp at hrev
  · rw [hr] at hrev
    have hdc : d = c := by
      simpa using hrev
    subst hdc
    have hlen : (jsTrimRight s).length < s.length := by
      unfold jsTrimRight
      rw [hr, List.dropWhile_cons, hws, if_pos rfl]
      have h1 : ((w.dropWhile isWsChar).reverse).length ≤ w.length := by
        rw [List.length_reverse]
        exact (w.dropWhile_sublist isWsChar).length_le
      have h2 : s.length = w.length + 1 := by
        rw [← List.length_reverse s, hr]
        simp
      omega
    have := length_jsTrim_le s
    rw [h] at this
    omega

theorem noTrail_tail {a : Char} {t : Str} (h : NoTrail (a :: t)) (ht : t ≠ []) :
    NoTrail t := by
  intro c hc
  apply h c
  rcases t with _ | ⟨b, l⟩
  · exact absurd rfl ht
  · rw [List.getLast?_cons_cons]
    exact hc

theorem noTrail_singleton {a : Char} (h : NoTrail [a]) : isWsChar a = false := by
  apply h a
  rfl

theorem noTrail_any_nonws {t : Str} (h : NoTrail t) (ht : t ≠ []) :
    t.any (fun c => !isWsChar c) = true := by
  have hlast : t.getLast? = some (t.getLast ht) := List.getLast?_eq_getLast t ht
  have hmem : t.getLast ht ∈ t := List.getLast_mem ht
  have hws : isWsChar (t.getLast ht) = false := h _ hlast
  rw [List.any_eq_true]
  exact ⟨t.getLast ht, hmem, by rw [hws]; rfl⟩

theorem noTrail_dropWhile {t : Str} (h : NoTrail t) :
    NoTrail (t.dropWhile isWsChar) := by
  induction t with
  | nil => exact h
  | cons a t2 ih =>
    rw [List.dropWhile_cons]
    cases ha : isWsChar a
    · simpa [ha] using h
    · simp only [ha]
      rcases ht2 : t2 with _ | ⟨b, l⟩
      · subst ht2
        have := noTrail_singleton h
        rw [this] at ha
        exact absurd ha (by simp)
      · rw [← ht2]
        have ht2ne : t2 ≠ [] := by
          rw [ht2]
          simp
        exact ih (noTrail_tail h ht2ne)

theorem takeWhile_append_of_any {t rest : Str}
    (h : t.any (fun c => !isWsChar c) = true) :
    (t ++ rest).takeWhile isWsChar = t.takeWhile isWsChar ∧
      (t ++ rest).dropWhile isWsChar = t.dropWhile isWsChar ++ rest := by
  induction t with
  | nil => simp at h
  | cons a t2 ih =>
    cases ha : isWsChar a
    · simp [List.takeWhile_cons, List.dropWhile_cons, ha]
    · have h2 : t2.any (fun c => !isWsChar c) = true := by
        rw [List.any_cons, ha] at h
        simpa using h
      have := ih h2
      simp [List.takeWhile_cons, List.dropWhile_cons, ha, this.1, this.2]

theorem tokenizeAux_true_eq (u : Str) :
    tokenizeAux true u = tokenizeAux false (u.dropWhile isWsChar) := by
  induction u with
  | nil => rfl
  | cons c v ih =>
    rw [List.dropWhile_cons]
    cases hc : isWsChar c
    · simp only [tokenizeAux, hc]
      rfl
    · simp only [tokenizeAux, hc]
      exact ih

theorem matchToks_lit_cons (c : Char) (ps : List PTok) (x : Char) (t : Str) :
    matchToks (PTok.lit c :: ps) (x :: t)
      = if c.toLower = x.toLower then
          (matchToks ps t).map (fun mr => (x :: mr.1, mr.2))
        else none := rfl

theorem matchToks_ws_cons (ps : List PTok) (x : Char) (t : Str) :
    matchToks (PTok.ws :: ps) (x :: t)
      = if isWsChar x then
          (matchToks ps ((x :: t).dropWhile isWsChar)).map
            (fun mr => ((x :: t).takeWhile isWsChar ++ mr.1, mr.2))
        else none := rfl

theorem tokenize_cons_nonws {c : Char} (t : Str) (hc : isWsChar c = false) :
    tokenize (c :: t) = PTok.lit c :: tokenize t := by
  simp only [tokenize]
  rw [tokenizeAux]
  rw [hc]
  simp

theorem tokenize_cons_ws {c : Char} (t : Str) (hc : isWsChar c = true) :
    tokenize (c :: t) = PTok.ws :: tokenizeAux true t := by
  simp only [tokenize]
  rw [tokenizeAux]
  rw [hc]
  simp

theorem matchToks_self : ∀ (n : Nat) (s rest : Str), s.length ≤ n → NoTrail s →
    matchToks (tokenize s) (s ++ rest) = some (s, rest) := by
  intro n
  induction n with
  | zero =>
    intro s rest hlen _
    have hs : s = [] := List.length_eq_zero.mp (Nat.le_zero.mp hlen)
    subst hs
    rfl
  | succ n ih =>
    intro s rest hlen hnt
    rcases s with _ | ⟨c, t⟩
    · rfl
    · cases hc : isWsChar c
      · have hnt2 : NoTrail t := by
          rcases ht : t with _ | ⟨b, l⟩
          · exact noTrail_nil
          · rw [← ht]
            exact noTrail_tail hnt (by rw [ht]; simp)
        have hthis := ih t rest (by simpa using Nat.le_of_succ_le_succ hlen) hnt2
        rw [tokenize_cons_nonws t hc, List.cons_append, matchToks_lit_cons,
          if_pos rfl, hthis]
        rfl
      · have htne : t ≠ [] := by
          intro ht
          subst ht
          have := noTrail_singleton hnt
          rw [this] at hc
          exact absurd hc (by simp)
        have hnt2 : NoTrail t := noTrail_tail hnt htne
        have hany : t.any (fun x => !isWsChar x) = true := noTrail_any_nonws hnt2 htne
        have hsplit := @takeWhile_append_of_any t rest hany
        rw [tokenize_cons_ws t hc, List.cons_append, matchToks_ws_cons, if_pos hc,
          List.dropWhile_cons, List.takeWhile_cons, hc, if_pos rfl, if_pos rfl,
          hsplit.1, hsplit.2, tokenizeAux_true_eq]
        have hu : (t.dropWhile isWsChar).length ≤ n := by
          have h1 : (t.dropWhile isWsChar).length ≤ t.length :=
            (t.dropWhile_sublist isWsChar).length_le
          have h2 : t.length ≤ n := by simpa using Nat.le_of_succ_le_succ hlen
          omega
        have hmatch := ih (t.dropWhile isWsChar) rest hu (noTrail_dropWhile hnt2)
        rw [tokenize] at hmatch
        rw [hmatch]
        simp [List.takeWhile_append_dropWhile]

theorem matchSentPunct_self {s : Str} (post : Str) {p : Char} (hnt : NoTrail s)
    (hp : isPunctChar p = true) :
    matchSentPunct (tokenize s) (s ++ p :: post) = some (s ++ [p], post) := by
  unfold matchSentPunct
  rw [matchToks_self s.length s (p :: post) (Nat.le_refl _) hnt]
  simp [hp]

theorem goReplaceFuel_nil (toks : List PTok) (repl : Str → Str) (fuel : Nat) :
    goReplaceFuel toks repl fuel []
      = (match matchSentPunct toks [] with
         | some (m, _) => repl m
         | none => []) := by
  cases fuel <;> rfl

theorem goReplaceFuel_succ (toks : List PTok) (repl : Str → Str) (fuel : Nat)
    (x : Char) (t : Str) :
    goReplaceFuel toks repl (fuel + 1) (x :: t)
      = (match matchSentPunct toks (x :: t) with
         | some (m, r) =>
           if m.isEmpty then repl [] ++ x :: goReplaceFuel toks repl fuel t
           else repl m ++ goReplaceFuel toks repl fuel r
         | none => x :: goReplaceFuel toks repl fuel t) := rfl

theorem goFirstFuel_nil (toks : List PTok) (marker : Str) (fuel : Nat) :
    goFirstFuel toks marker fuel []
      = (match matchSentPunct toks [] with
         | some (g, _) => g ++ strL " (" ++ marker ++ strL ") "
         | none => []) := by
  cases fuel <;> rfl

theorem goFirstFuel_succ (toks : List PTok) (marker : Str) (fuel : Nat)
    (x : Char) (t : Str) :
    goFirstFuel toks marker (fuel + 1) (x :: t)
      = (match matchSentPunct toks (x :: t) with
         | some (g, r) => g ++ strL " (" ++ marker ++ strL ") " ++ r.dropWhile isWsChar
         | none => x :: goFirstFuel toks marker fuel t) := rfl

theorem matchSentPunct_none_of_no_match {toks : List PTok} {s : Str}
    (hm : hasMatchAnywhere toks s = false) : matchSentPunct toks s = none := by
  cases h : matchSentPunct toks s
  · rfl
  · exfalso
    rcases s with _ | ⟨x, t⟩
    · unfold hasMatchAnywhere at hm
      rw [h] at hm
      simp at hm
    · unfold hasMatchAnywhere at hm
      rw [h] at hm
      simp at hm

theorem hasMatchAnywhere_tail {toks : List PTok} {x : Char} {t : Str}
    (hm : hasMatchAnywhere toks (x :: t) = false) : hasMatchAnywhere toks t = false := by
  unfold hasMatchAnywhere at hm
  rw [Bool.or_eq_false_iff] at hm
  exact hm.2

theorem goReplaceFuel_no_match {toks : List PTok} {repl : Str → Str} :
    ∀ (s : Str) (fuel : Nat), s.length ≤ fuel →
      hasMatchAnywhere toks s = false → goReplaceFuel toks repl fuel s = s := by
  intro s
  induction s with
  | nil =>
    intro fuel _ hm
    rw [goReplaceFuel_nil, matchSentPunct_none_of_no_match hm]
  | cons x t ih =>
    intro fuel hlen hm
    rcases fuel with _ | f
    · simp at hlen
    · rw [goReplaceFuel_succ, matchSentPunct_none_of_no_match hm]
      rw [ih f (by simpa using Nat.le_of_succ_le_succ hlen) (hasMatchAnywhere_tail hm)]

theorem goFirstFuel_no_match {toks : List PTok} {marker : Str} :
    ∀ (s : Str) (fuel : Nat), s.length ≤ fuel →
      hasMatchAnywhere toks s = false → goFirstFuel toks marker fuel s = s := by
  intro s
  induction s with
  | nil =>
    intro fuel _ hm
    rw [goFirstFuel_nil, matchSentPunct_none_of_no_match hm]
  | cons x t ih =>
    intro fuel hlen hm
    rcases fuel with _ | f
    · simp at hlen
    · rw [goFirstFuel_succ, matchSentPunct_none_of_no_match hm]
      rw [ih f (by simpa using Nat.le_of_succ_le_succ hlen) (hasMatchAnywhere_tail hm)]

theorem goReplaceFuel_skip {toks : List PTok} {repl : Str → Str} :
    ∀ (pre rest : Str) (fuel : Nat), (pre ++ rest).length ≤ fuel →
      (∀ j, j < pre.length → matchSentPunct toks (List.drop j (pre ++ rest)) = none) →
      goReplaceFuel toks repl fuel (pre ++ rest)
        = pre ++ goReplaceFuel toks repl (fuel - pre.length) rest := by
  intro pre
  induction pre with
  | nil =>
    intro rest fuel _ _
    simp
  | cons x pre2 ih =>
    intro rest fuel hlen hj
    rcases fuel with _ | f
    · simp at hlen
    · have h0 : matchSentPunct toks (x :: (pre2 ++ rest)) = none := by
        have := hj 0 (by simp)
        simpa using this
      rw [List.cons_append, goReplaceFuel_succ, h0]
      have hrec := ih rest f (by simpa using Nat.le_of_succ_le_succ hlen)
        (fun j hlt => by
          have := hj (j + 1) (by simpa using Nat.succ_lt_succ hlt)
          simpa using this)
      rw [hrec]
      simp [Nat.succ_sub_succ]

theorem markerReplace_concat {s : Str} {p : Char} (mk : Str) (hnt : NoTrail s)
    (hp : isPunctChar p = true) :
    DocumentProcessor.markerReplace mk (s ++ [p]) = s ++ strL " " ++ mk ++ [p] := by
  unfold DocumentProcessor.markerReplace
  rw [List.getLast?_concat]
  simp only [hp, if_true, List.dropLast_concat]
  rw [jsTrimRight_eq_self hnt]

theorem truthyS_of_ne_nil {y : Str} (hy : y ≠ []) : truthyS (some y) = true := by
  rcases y with _ | ⟨c, t⟩
  · exact absurd rfl hy
  · rfl

theorem citationMarker_eval {pd : PaperDetails} {a : Str} {moreAuthors : List Str}
    {y : Str} (hauth : pd.authors = some (a :: moreAuthors)) (hyear : pd.year = some y)
    (hy : y ≠ []) :
    DocumentProcessor.citationMarker pd
      = strL "(" ++ lastSegD (jsSplitChar ' ' a) ++ strL ", " ++ y ++ strL ")" := by
  unfold DocumentProcessor.citationMarker DocumentProcessor.authorLastName
  rw [hauth, hyear, truthyS_of_ne_nil hy]
  rfl

/-- C1: for every text containing the citation sentence exactly once, followed
by sentence-final punctuation, the documentProcessor annotator inserts the
marker, a parenthesised last name (the last space-separated token of the first
author) and year, immediately after the matched sentence and before the
trailing punctuation; the witness instantiates the spec example, annotating
the text The sky is blue. with the citation of Jane Doe, 2020. -/
theorem annotator_inserts_marker_before_punctuation
    (pre post s : Str) (p : Char) (pd : PaperDetails) (a : Str)
    (moreAuthors : List Str) (y : Str)
    (hs : jsTrim s = s) (hne : s ≠ []) (hp : isPunctChar p = true)
    (hpre : ∀ j, j < pre.length →
      matchSentPunct (tokenize s) (List.drop j (pre ++ (s ++ p :: post))) = none)
    (hpost : hasMatchAnywhere (tokenize s) post = false)
    (hauth : pd.authors = some (a :: moreAuthors)) (hyear : pd.year = some y)
    (hy : y ≠ []) :
    DocumentProcessor.annotateTextWithCitation (pre ++ (s ++ p :: post))
      [⟨some s, some pd, none⟩]
      = pre ++ s ++ strL " " ++ strL "(" ++ lastSegD (jsSplitChar ' ' a)
          ++ strL ", " ++ y ++ strL ")" ++ p :: post := by
  have hnt : NoTrail s := noTrail_of_jsTrim_eq hs
  have htext : pre ++ (s ++ p :: post) ≠ [] := by
    rcases s with _ | ⟨s0, s1⟩
    · exact absurd rfl hne
    · simp
  unfold DocumentProcessor.annotateTextWithCitation
  rw [if_neg htext, if_neg (by simp : ¬([⟨some s, some pd, none⟩] : List Citation) = [])]
  have hsort : sortCitations [⟨some s, some pd, none⟩] = [⟨some s, some pd, none⟩] := by
    simp [sortCitations]
  rw [hsort]
  simp only [List.foldl_cons, List.foldl_nil]
  unfold DocumentProcessor.applyCitation
  simp only [if_neg hne]
  rw [hs]
  unfold replaceAllSent
  rw [goReplaceFuel_skip pre (s ++ p :: post)
    (pre ++ (s ++ p :: post)).length (Nat.le_refl _) hpre]
  have hflen : (pre ++ (s ++ p :: post)).length - pre.length = (s ++ p :: post).length := by
    simp
  rw [hflen]
  have hms : matchSentPunct (tokenize s) (s ++ p :: post) = some (s ++ [p], post) :=
    matchSentPunct_self post hnt hp
  rcases s with _ | ⟨s0, s1⟩
  · exact absurd rfl hne
  · have hlen1 : ((s0 :: s1) ++ p :: post).length = (s1 ++ p :: post).length + 1 := by
      simp
    rw [hlen1]
    rw [show (s0 :: s1) ++ p :: post = s0 :: (s1 ++ p :: post) from rfl] at hms ⊢
    rw [goReplaceFuel_succ, hms]
    have hmne : ((s0 :: s1) ++ [p]).isEmpty = false := rfl
    simp only [hmne, Bool.false_eq_true, if_false]
    have hpostlen : post.length ≤ (s1 ++ p :: post).length := by
      simp
      omega
    rw [goReplaceFuel_no_match post _ hpostlen hpost]
    rw [markerReplace_concat _ hnt hp]
    rw [citationMarker_eval hauth hyear hy]
    simp [List.append_assoc]

/-- C1 witness: the spec example, with an empty context around the sentence. -/
theorem annotator_inserts_marker_before_punctuation_witness :
    DocumentProcessor.annotateTextWithCitation (strL "The sky is blue.")
      [⟨some (strL "The sky is blue"),
        some ⟨some [strL "Jane Doe"], some (strL "2020"), none, none, none⟩, none⟩]
      = strL "The sky is blue (Doe, 2020)." := by
  have h := annotator_inserts_marker_before_punctuation [] [] (strL "The sky is blue")
    '.' ⟨some [strL "Jane Doe"], some (strL "2020"), none, none, none⟩
    (strL "Jane Doe") [] (strL "2020") (by decide) (by decide) (by decide)
    (by intro j hj; simp at hj) (by decide) rfl rfl (by decide)
  exact h

/-- skyCitation is the citation of the spec example. -/
def skyCitation : Citation :=
  ⟨some (strL "The sky is blue"),
    some ⟨some [strL "Jane Doe"], some (strL "2020"), none, none, none⟩, none⟩

/-- C2 counterexample: annotating the already annotated sky text again with
the same citation changes the string, so annotation is not idempotent. -/
theorem annotate_not_idempotent_counterexample :
    DocumentProcessor.annotateTextWithCitation
        (DocumentProcessor.annotateTextWithCitation (strL "The sky is blue.")
          [skyCitation]) [skyCitation]
      ≠ DocumentProcessor.annotateTextWithCitation (strL "The sky is blue.")
          [skyCitation] := by decide

/-- C2 amended: annotation is not idempotent; when the original sentence
remains intact in the annotated output, a second application re-matches it and
inserts the marker again, duplicating it, as on the spec example. -/
theorem annotate_twice_duplicates_marker :
    DocumentProcessor.annotateTextWithCitation
        (DocumentProcessor.annotateTextWithCitation (strL "The sky is blue.")
          [skyCitation]) [skyCitation]
      = strL "The sky is blue (Doe, 2020) (Doe, 2020)." := by decide

/-- C4 counterexample: on the spec example the two annotators disagree, the
documentProcessor one inserting the marker before the period and the hooks one
after it with a trailing space. -/
theorem annotators_differ_counterexample :
    DocumentProcessor.annotateTextWithCitation (strL "The sky is blue.") [skyCitation]
      ≠ Hooks.annotateTextWithCitation (strL "The sky is blue.") [skyCitation] := by
  decide

theorem applyCitation_lib_id_of_no_match {text : Str} {c : Citation}
    (h : ∀ s, c.original_sentence = some s →
      hasMatchAnywhere (tokenize (jsTrim s)) text = false) :
    DocumentProcessor.applyCitation text c = text := by
  unfold DocumentProcessor.applyCitation
  rcases hos : c.original_sentence with _ | s
  · rcases c.paper_details with _ | pd <;> rfl
  · rcases c.paper_details with _ | pd
    · rfl
    · dsimp only
      by_cases hs : s = []
      · rw [if_pos hs]
      · rw [if_neg hs]
        exact goReplaceFuel_no_match text text.length (Nat.le_refl _) (h s hos)

theorem applyCitation_hooks_id_of_no_match {text : Str} {c : Citation}
    (h : ∀ s, c.original_sentence = some s →
      hasMatchAnywhere (tokenizeExact (jsTrim s)) text = false) :
    Hooks.applyCitation text c = text := by
  unfold Hooks.applyCitation
  rcases hos : c.original_sentence with _ | s
  · rcases c.paper_details with _ | pd <;> rfl
  · rcases c.paper_details with _ | pd
    · rfl
    · dsimp only
      by_cases hs : s = []
      · rw [if_pos hs]
      · rw [if_neg hs]
        exact goFirstFuel_no_match text text.length (Nat.le_refl _) (h s hos)

theorem foldl_id_of_pointwise {α : Type} {f : Str → α → Str} {text : Str} :
    ∀ l : List α, (∀ c ∈ l, f text c = text) → l.foldl f text = text := by
  intro l
  induction l with
  | nil => intro _; rfl
  | cons c rest ih =>
    intro h
    rw [List.foldl_cons, h c (by simp)]
    exact ih (fun d hd => h d (by simp [hd]))

theorem both_annotators_id_of_no_match (text : Str) (cs : List Citation)
    (h : ∀ c ∈ cs, ∀ s, c.original_sentence = some s →
      hasMatchAnywhere (tokenize (jsTrim s)) text = false ∧
        hasMatchAnywhere (tokenizeExact (jsTrim s)) text = false) :
    DocumentProcessor.annotateTextWithCitation text cs = text
    ∧ Hooks.annotateTextWithCitation text cs = text := by
  have hmem : ∀ c ∈ sortCitations cs, c ∈ cs := by
    intro c hc
    exact (List.perm_insertionSort longerFirst cs).mem_iff.mp hc
  have hlib : DocumentProcessor.annotateTextWithCitation text cs = text := by
    unfold DocumentProcessor.annotateTextWithCitation
    by_cases ht : text = []
    · rw [if_pos ht]
    · rw [if_neg ht]
      by_cases hcs : cs = []
      · rw [if_pos hcs]
      · rw [if_neg hcs]
        exact foldl_id_of_pointwise _ (fun c hc =>
          applyCitation_lib_id_of_no_match (fun s hs => (h c (hmem c hc) s hs).1))
  have hhooks : Hooks.annotateTextWithCitation text cs = text := by
    unfold Hooks.annotateTextWithCitation
    by_cases ht : text = []
    · rw [if_pos ht]
    · rw [if_neg ht]
      by_cases hcs : cs = []
      · rw [if_pos hcs]
      · rw [if_neg hcs]
        exact foldl_id_of_pointwise _ (fun c hc =>
          applyCitation_hooks_id_of_no_match (fun s hs => (h c (hmem c hc) s hs).2))
  exact ⟨hlib, hhooks⟩

/-- C4 amended: the two annotators differ in general (see the counterexample),
but agree whenever no citation sentence pattern matches the text, both
returning the input unchanged. -/
theorem annotators_agree_on_unmatched_text (text : Str) (cs : List Citation)
    (h : ∀ c ∈ cs, ∀ s, c.original_sentence = some s →
      hasMatchAnywhere (tokenize (jsTrim s)) text = false ∧
        hasMatchAnywhere (tokenizeExact (jsTrim s)) text = false) :
    DocumentProcessor.annotateTextWithCitation text cs
      = Hooks.annotateTextWithCitation text cs
    ∧ DocumentProcessor.annotateTextWithCitation text cs = text := by
  have hid := both_annotators_id_of_no_match text cs h
  exact ⟨hid.1.trans hid.2.symm, hid.1⟩

/-- C4 amended witness: a citation whose sentence does not occur in the
text. -/
theorem annotators_agree_on_unmatched_text_witness :
    DocumentProcessor.annotateTextWithCitation (strL "Hello world")
        [⟨some (strL "xyz"), some ⟨some [strL "A"], some (strL "2020"),
          none, none, none⟩, none⟩]
      = Hooks.annotateTextWithCitation (strL "Hello world")
        [⟨some (strL "xyz"), some ⟨some [strL "A"], some (strL "2020"),
          none, none, none⟩, none⟩]
    ∧ DocumentProcessor.annotateTextWithCitation (strL "Hello world")
        [⟨some (strL "xyz"), some ⟨some [strL "A"], some (strL "2020"),
          none, none, none⟩, none⟩]
      = strL "Hello world" :=
  annotators_agree_on_unmatched_text (strL "Hello world") _ (by decide)

/-- C5: a citation whose sentence pattern does not match anywhere in the text
is silently skipped by both annotators: with that citation alone the output
equals the input text, and no error is raised (both functions are total). -/
theorem unmatched_citation_is_skipped (text s : Str) (pd : PaperDetails)
    (pn : Option Str)
    (h1 : hasMatchAnywhere (tokenize (jsTrim s)) text = false)
    (h2 : hasMatchAnywhere (tokenizeExact (jsTrim s)) text = false) :
    DocumentProcessor.annotateTextWithCitation text [⟨some s, some pd, pn⟩] = text
    ∧ Hooks.annotateTextWithCitation text [⟨some s, some pd, pn⟩] = text := by
  exact both_annotators_id_of_no_match text [⟨some s, some pd, pn⟩]
    (by
      intro c hc s2 hs2
      have hc2 : c = ⟨some s, some pd, pn⟩ := by simpa using hc
      subst hc2
      have hs3 : s = s2 := by simpa using hs2
      subst hs3
      exact ⟨h1, h2⟩)

/-- C5 witness: the sentence xyz does not occur in Hello world. -/
theorem unmatched_citation_is_skipped_witness :
    DocumentProcessor.annotateTextWithCitation (strL "Hello world")
        [⟨some (strL "xyz"), some ⟨none, none, none, none, none⟩, none⟩]
      = strL "Hello world"
    ∧ Hooks.annotateTextWithCitation (strL "Hello world")
        [⟨some (strL "xyz"), some ⟨none, none, none, none, none⟩, none⟩]
      = strL "Hello world" :=
  unmatched_citation_is_skipped (strL "Hello world") (strL "xyz")
    ⟨none, none, none, none, none⟩ none (by decide) (by decide)

/-- C9: both annotators first sort the citation list by descending length of
the original sentence (a missing sentence counting as length zero) and then
apply the per-citation replacements in that order: the applied list is a
permutation of the input that is pairwise ordered longest first. -/
theorem citations_applied_longest_first (text : Str) (cs : List Citation)
    (h1 : text ≠ []) (h2 : cs ≠ []) :
    DocumentProcessor.annotateTextWithCitation text cs
        = (sortCitations cs).foldl DocumentProcessor.applyCitation text
    ∧ Hooks.annotateTextWithCitation text cs
        = (sortCitations cs).foldl Hooks.applyCitation text
    ∧ (sortCitations cs).Pairwise longerFirst
    ∧ (sortCitations cs).Perm cs := by
  refine ⟨?_, ?_, ?_, ?_⟩
  · unfold DocumentProcessor.annotateTextWithCitation
    rw [if_neg h1, if_neg h2]
  · unfold Hooks.annotateTextWithCitation
    rw [if_neg h1, if_neg h2]
  · exact List.sorted_insertionSort longerFirst cs
  · exact List.perm_insertionSort longerFirst cs

/-- C9 witness: a two-citation list with sentences of different lengths. -/
theorem citations_applied_longest_first_witness :
    DocumentProcessor.annotateTextWithCitation (strL "ab cd")
        [⟨some (strL "ab"), some ⟨none, none, none, none, none⟩, none⟩,
         ⟨some (strL "ab cd"), some ⟨none, none, none, none, none⟩, none⟩]
        = (sortCitations
            [⟨some (strL "ab"), some ⟨none, none, none, none, none⟩, none⟩,
             ⟨some (strL "ab cd"), some ⟨none, none, none, none, none⟩, none⟩]).foldl
            DocumentProcessor.applyCitation (strL "ab cd")
    ∧ Hooks.annotateTextWithCitation (strL "ab cd")
        [⟨some (strL "ab"), some ⟨none, none, none, none, none⟩, none⟩,
         ⟨some (strL "ab cd"), some ⟨none, none, none, none, none⟩, none⟩]
        = (sortCitations
            [⟨some (strL "ab"), some ⟨none, none, none, none, none⟩, none⟩,
             ⟨some (strL "ab cd"), some ⟨none, none, none, none, none⟩, none⟩]).foldl
            Hooks.applyCitation (strL "ab cd")
    ∧ (sortCitations
        [⟨some (strL "ab"), some ⟨none, none, none, none, none⟩, none⟩,
         ⟨some (strL "ab cd"), some ⟨none, none, none, none, none⟩, none⟩]).Pairwise
        longerFirst
    ∧ (sortCitations
        [⟨some (strL "ab"), some ⟨none, none, none, none, none⟩, none⟩,
         ⟨some (strL "ab cd"), some ⟨none, none, none, none, none⟩, none⟩]).Perm
        [⟨some (strL "ab"), some ⟨none, none, none, none, none⟩, none⟩,
         ⟨some (strL "ab cd"), some ⟨none, none, none, none, none⟩, none⟩] :=
  citations_applied_longest_first (strL "ab cd") _ (by decide) (by decide)

/-! Reference counting: C3. -/

/-- specPaperKey is the paper identity rule in the words of the spec: the DOI,
else the URL, else the title. -/
def specPaperKey (pd : PaperDetails) : Str :=
  if truthyS pd.doi then pd.doi.getD []
  else if truthyS pd.url then pd.url.getD []
  else pd.title.getD []

theorem specPaperKey_eq_countKey (pd : PaperDetails) :
    specPaperKey pd = DocumentProcessor.countKey pd := by
  unfold specPaperKey DocumentProcessor.countKey
  by_cases h1 : truthyS pd.doi = true
  · rw [if_pos h1, if_pos h1]
  · rw [if_neg h1, if_neg h1]
    by_cases h2 : truthyS pd.url = true
    · rw [if_pos h2, if_pos h2]
    · rw [if_neg h2, if_neg h2]
      rcases ht : pd.title with _ | t
      · rfl
      · rcases t with _ | ⟨c, u⟩
        · rfl
        · rfl

theorem refKey_eq_countKey {pd : PaperDetails}
    (h : (truthyS pd.doi || truthyS pd.url || truthyS pd.title) = true) :
    DocumentProcessor.refKey pd = DocumentProcessor.countKey pd := by
  unfold DocumentProcessor.refKey DocumentProcessor.countKey
  by_cases h1 : truthyS pd.doi = true
  · rw [if_pos h1, if_pos h1]
  · rw [if_neg h1, if_neg h1]
    by_cases h2 : truthyS pd.url = true
    · rw [if_pos h2, if_pos h2]
    · rw [if_neg h2, if_neg h2]
      have h3 : truthyS pd.title = true := by
        rcases Bool.or_eq_true_iff.mp h with h4 | h4
        · rcases Bool.or_eq_true_iff.mp h4 with h5 | h5
          · exact absurd h5 h1
          · exact absurd h5 h2
        · exact h4
      rw [if_pos h3, if_pos h3]

theorem lookupKey_none_iff (key : Str) :
    ∀ acc : List (Str × DocumentProcessor.PaperData),
      DocumentProcessor.lookupKey key acc = none ↔ key ∉ acc.map Prod.fst := by
  intro acc
  induction acc with
  | nil => simp [DocumentProcessor.lookupKey]
  | cons kv rest ih =>
    rcases kv with ⟨k, v⟩
    unfold DocumentProcessor.lookupKey
    by_cases hk : k = key
    · subst hk
      rw [if_pos rfl]
      constructor
      · intro h
        exact absurd h (by simp)
      · intro h
        exfalso
        exact h (by rw [List.map_cons]; exact List.mem_cons_self _ _)
    · rw [if_neg hk]
      simp only [List.map_cons, List.mem_cons]
      constructor
      · intro h hmem
        rcases hmem with h2 | h2
        · exact hk h2.symm
        · exact (ih.mp h) h2
      · intro h
        exact ih.mpr (fun h2 => h (Or.inr h2))

theorem updateValue_map_fst (key : Str) (f : DocumentProcessor.PaperData → DocumentProcessor.PaperData) :
    ∀ acc : List (Str × DocumentProcessor.PaperData),
      (DocumentProcessor.updateValue key f acc).map Prod.fst = acc.map Prod.fst := by
  intro acc
  induction acc with
  | nil => rfl
  | cons kv rest ih =>
    rcases kv with ⟨k, v⟩
    unfold DocumentProcessor.updateValue
    by_cases hk : k = key
    · rw [if_pos hk]
      simp
    · rw [if_neg hk]
      simp [ih]

theorem collect_count_invariant :
    ∀ (cs : List Citation) (acc : List (Str × DocumentProcessor.PaperData)) (keys : List Str),
      acc.map Prod.fst = keys →
      (∀ c ∈ cs, ∀ pd, c.paper_details = some pd →
        (truthyS pd.doi || truthyS pd.url || truthyS pd.title) = true) →
      (cs.foldl DocumentProcessor.collectStep acc).map Prod.fst
        = cs.foldl DocumentProcessor.countStep keys := by
  intro cs
  induction cs with
  | nil =>
    intro acc keys hk _
    simpa using hk
  | cons c rest ih =>
    intro acc keys hk h
    rw [List.foldl_cons, List.foldl_cons]
    rcases hpd : c.paper_details with _ | pd
    · have hstep1 : DocumentProcessor.collectStep acc c = acc := by
        unfold DocumentProcessor.collectStep
        rw [hpd]
      have hstep2 : DocumentProcessor.countStep keys c = keys := by
        unfold DocumentProcessor.countStep
        rw [hpd]
      rw [hstep1, hstep2]
      exact ih acc keys hk (fun d hd => h d (by simp [hd]))
    · have hkey : DocumentProcessor.refKey pd = DocumentProcessor.countKey pd :=
        refKey_eq_countKey (h c (by simp) pd hpd)
      have hstep2 : DocumentProcessor.countStep keys c
          = DocumentProcessor.addKey keys (DocumentProcessor.countKey pd) := by
        unfold DocumentProcessor.countStep
        rw [hpd]
      rw [hstep2]
      rcases hlook : DocumentProcessor.lookupKey (DocumentProcessor.refKey pd) acc with _ | v
      · have hnotmem : DocumentProcessor.countKey pd ∉ keys := by
          rw [← hk, ← hkey]
          exact (lookupKey_none_iff _ acc).mp hlook
        have hstep1 : DocumentProcessor.collectStep acc c
            = acc ++ [(DocumentProcessor.refKey pd, ⟨pd, c.page_number⟩)] := by
          unfold DocumentProcessor.collectStep
          rw [hpd]
          dsimp only
          rw [hlook]
        rw [hstep1]
        have hadd : DocumentProcessor.addKey keys (DocumentProcessor.countKey pd)
            = keys ++ [DocumentProcessor.countKey pd] := by
          unfold DocumentProcessor.addKey
          rw [if_neg hnotmem]
        rw [hadd]
        apply ih
        · simp [hk, hkey]
        · exact fun d hd => h d (by simp [hd])
      · have hmem : DocumentProcessor.countKey pd ∈ keys := by
          rw [← hk, ← hkey]
          by_contra hcon
          rw [← lookupKey_none_iff _ acc] at hcon
          rw [hcon] at hlook
          exact Option.noConfusion hlook
        have hstep1 : (DocumentProcessor.collectStep acc c).map Prod.fst = keys := by
          unfold DocumentProcessor.collectStep
          rw [hpd]
          dsimp only
          rw [hlook]
          rw [updateValue_map_fst]
          exact hk
        have hadd : DocumentProcessor.addKey keys (DocumentProcessor.countKey pd) = keys := by
          unfold DocumentProcessor.addKey
          rw [if_pos hmem]
        rw [hadd]
        have := ih (DocumentProcessor.collectStep acc c) keys hstep1
          (fun d hd => h d (by simp [hd]))
        exact this

/-- C3 counterexample: two citations whose paper details carry no doi, url or
title are formatted as two reference entries (their JSON fallback keys
differ), while getUniqueReferencesCount collapses both onto the empty-string
key and reports one, so the two counts disagree. -/
theorem reference_count_mismatch_counterexample :
    ¬((DocumentProcessor.formatReferences
        [⟨some (strL "s1"), some ⟨some [strL "A"], none, none, none, none⟩, none⟩,
         ⟨some (strL "s2"), some ⟨some [strL "B"], none, none, none, none⟩, none⟩]
        (strL "APA")).length
      = DocumentProcessor.getUniqueReferencesCount
        [⟨some (strL "s1"), some ⟨some [strL "A"], none, none, none, none⟩, none⟩,
         ⟨some (strL "s2"), some ⟨some [strL "B"], none, none, none, none⟩, none⟩]) := by
  decide

/-- C3 amended: whenever every citation with paper details has a truthy doi,
url or title, the number of formatted reference entries equals the
referenceCount statistic, and that count is the number of distinct
paper-identity keys in the sense of the spec (DOI, else URL, else title); the
two functions disagree only on citations with none of the three, where
formatReferences keys by the JSON rendering of the details while the counter
keys all of them by the empty string. -/
theorem reference_count_consistency (cs : List Citation) (style : Str)
    (h : ∀ c ∈ cs, ∀ pd, c.paper_details = some pd →
      (truthyS pd.doi || truthyS pd.url || truthyS pd.title) = true) :
    (DocumentProcessor.formatReferences cs style).length
        = DocumentProcessor.getUniqueReferencesCount cs
    ∧ DocumentProcessor.getUniqueReferencesCount cs
        = (cs.foldl (fun acc c =>
            match c.paper_details with
            | none => acc
            | some pd => DocumentProcessor.addKey acc (specPaperKey pd)) []).length := by
  constructor
  · unfold DocumentProcessor.formatReferences DocumentProcessor.getUniqueReferencesCount
      DocumentProcessor.collectUnique
    rw [List.length_map]
    rw [← collect_count_invariant cs [] [] rfl h]
    rw [List.length_map]
  · unfold DocumentProcessor.getUniqueReferencesCount
    have hfun : (fun acc c =>
        match c.paper_details with
        | none => acc
        | some pd => DocumentProcessor.addKey acc (specPaperKey pd))
          = DocumentProcessor.countStep := by
      funext acc c
      unfold DocumentProcessor.countStep
      rcases c.paper_details with _ | pd
      · rfl
      · dsimp only
        rw [specPaperKey_eq_countKey]
    rw [hfun]

/-- C3 amended witness: two citations sharing a doi and one with a distinct
title. -/
theorem reference_count_consistency_witness :
    (DocumentProcessor.formatReferences
        [⟨some (strL "s1"), some ⟨none, none, none, none, some (strL "d1")⟩, none⟩,
         ⟨some (strL "s2"), some ⟨none, none, none, none, some (strL "d1")⟩, none⟩,
         ⟨some (strL "s3"), some ⟨none, none, some (strL "T"), none, none⟩, none⟩]
        (strL "APA")).length
      = DocumentProcessor.getUniqueReferencesCount
        [⟨some (strL "s1"), some ⟨none, none, none, none, some (strL "d1")⟩, none⟩,
         ⟨some (strL "s2"), some ⟨none, none, none, none, some (strL "d1")⟩, none⟩,
         ⟨some (strL "s3"), some ⟨none, none, some (strL "T"), none, none⟩, none⟩]
    ∧ DocumentProcessor.getUniqueReferencesCount
        [⟨some (strL "s1"), some ⟨none, none, none, none, some (strL "d1")⟩, none⟩,
         ⟨some (strL "s2"), some ⟨none, none, none, none, some (strL "d1")⟩, none⟩,
         ⟨some (strL "s3"), some ⟨none, none, some (strL "T"), none, none⟩, none⟩]
      = (([⟨some (strL "s1"), some ⟨none, none, none, none, some (strL "d1")⟩, none⟩,
           ⟨some (strL "s2"), some ⟨none, none, none, none, some (strL "d1")⟩, none⟩,
           ⟨some (strL "s3"), some ⟨none, none, some (strL "T"), none, none⟩,
             none⟩] : List Citation).foldl
          (fun acc c =>
            match c.paper_details with
            | none => acc
            | some pd => DocumentProcessor.addKey acc (specPaperKey pd)) []).length :=
  reference_count_consistency
    [⟨some (strL "s1"), some ⟨none, none, none, none, some (strL "d1")⟩, none⟩,
     ⟨some (strL "s2"), some ⟨none, none, none, none, some (strL "d1")⟩, none⟩,
     ⟨some (strL "s3"), some ⟨none, none, some (strL "T"), none, none⟩, none⟩]
    (strL "APA") (by decide)

/-! Style fallback and missing-field defaults: C6 and C7. -/

/-- twoAuthorCitation has two authors, so the hooks APA author text (first
author with et al.) differs from the joined list the fallback uses. -/
def twoAuthorCitation : Citation :=
  ⟨some (strL "s"),
    some ⟨some [strL "Ann A", strL "Bob B"], some (strL "2020"),
      some (strL "T"), some (strL "http://u"), none⟩, none⟩

/-- C6 counterexample: for the hooks formatter an unrecognized style name does
not reproduce the APA output when a paper has several authors, because the
author helper falls back to joining all authors instead of the APA et-al
form. -/
theorem hooks_fallback_differs_from_apa_counterexample :
    Hooks.formatReferences [twoAuthorCitation] (strL "FOO")
      ≠ Hooks.formatReferences [twoAuthorCitation] (strL "APA") := by decide

/-- C6 amended: for the documentProcessor formatter the claim holds: every
style name whose uppercasing is none of APA, MLA and CHICAGO produces exactly
the APA output, the default switch branch being identical to the APA branch;
the hooks formatter instead renders the author list differently in its
fallback, so it does not in general reproduce its APA output. -/
theorem unrecognized_style_falls_back_to_apa (cs : List Citation) (style : Str)
    (h1 : upperS style ≠ strL "APA") (h2 : upperS style ≠ strL "MLA")
    (h3 : upperS style ≠ strL "CHICAGO") :
    DocumentProcessor.formatReferences cs style
      = DocumentProcessor.formatReferences cs (strL "APA") := by
  have hapa : upperS (strL "APA") = strL "APA" := by decide
  have hfun : (fun kv : Str × DocumentProcessor.PaperData =>
      DocumentProcessor.formatEntry style kv.2)
        = (fun kv => DocumentProcessor.formatEntry (strL "APA") kv.2) := by
    funext kv
    unfold DocumentProcessor.formatEntry
    rw [if_neg h1, if_neg h2, if_neg h3, if_pos hapa]
  unfold DocumentProcessor.formatReferences
  rw [hfun]

/-- C6 amended witness: the unrecognized style FOO. -/
theorem unrecognized_style_falls_back_to_apa_witness :
    DocumentProcessor.formatReferences [twoAuthorCitation] (strL "FOO")
      = DocumentProcessor.formatReferences [twoAuthorCitation] (strL "APA") :=
  unrecognized_style_falls_back_to_apa [twoAuthorCitation] (strL "FOO")
    (by decide) (by decide) (by decide)

/-- C7: a citation whose paper details have a missing or empty authors list
and a missing or empty year is rendered by the documentProcessor APA formatter
with an entry beginning with the text run Unknown Author (n.d.)., and the
hooks author helper renders an empty author list as Unknown for every
style. -/
theorem missing_author_and_year_defaults (pd : PaperDetails) (os pn : Option Str)
    (ha : pd.authors = none ∨ pd.authors = some [])
    (hy : pd.year = none ∨ pd.year = some []) :
    (∃ parts, DocumentProcessor.formatReferences [⟨os, some pd, pn⟩] (strL "APA")
        = [RefPart.run (strL "Unknown Author (n.d.). ") false :: parts])
    ∧ (∀ style, Hooks.formatAuthors [] style = strL "Unknown") := by
  constructor
  · have hcol : DocumentProcessor.collectUnique [⟨os, some pd, pn⟩]
        = [(DocumentProcessor.refKey pd, ⟨pd, pn⟩)] := rfl
    have hauthor : DocumentProcessor.refAuthorText pd = strL "Unknown Author" := by
      unfold DocumentProcessor.refAuthorText
      rcases ha with ha | ha <;> rw [ha]
    have hyear : DocumentProcessor.refYearText pd = strL "n.d." := by
      unfold DocumentProcessor.refYearText
      rcases hy with hy | hy <;> rw [hy] <;> rfl
    unfold DocumentProcessor.formatReferences
    rw [hcol]
    rw [List.map_cons, List.map_nil]
    unfold DocumentProcessor.formatEntry
    rw [if_pos (by decide : upperS (strL "APA") = strL "APA")]
    rw [hauthor, hyear]
    rw [show strL "Unknown Author" ++ strL " (" ++ strL "n.d." ++ strL "). "
      = strL "Unknown Author (n.d.). " from by decide]
    exact ⟨_, rfl⟩
  · intro style
    rfl

/-- C7 witness: a citation with entirely absent paper details fields. -/
theorem missing_author_and_year_defaults_witness :
    (∃ parts, DocumentProcessor.formatReferences
        [⟨none, some ⟨none, none, none, none, none⟩, none⟩] (strL "APA")
        = [RefPart.run (strL "Unknown Author (n.d.). ") false :: parts])
    ∧ (∀ style, Hooks.formatAuthors [] style = strL "Unknown") :=
  missing_author_and_year_defaults ⟨none, none, none, none, none⟩ none none
    (Or.inl rfl) (Or.inl rfl)

/-! Dashboard disjointness: C8. -/

/-- C8 counterexample: dismissing a citation and then accepting it again puts
its id into both sets, because the accept handler does not consult the
dismissed set; so an unrestricted operation sequence can violate the claimed
invariant. -/
theorem accept_after_dismiss_breaks_disjointness :
    Dashboard.disjointB
      (Dashboard.runOps
        [Dashboard.DashOp.dismiss ⟨strL "c1"⟩,
         Dashboard.DashOp.accept ⟨strL "c1"⟩]) = false := by decide

theorem accept_preserves_disjoint {st : Dashboard.DashState} {c : Dashboard.DashCitation}
    (hd : Dashboard.disjointB st = true)
    (hc : Dashboard.memId st.dismissed c.id = false) :
    Dashboard.disjointB (Dashboard.handleAcceptCitation st c) = true := by
  unfold Dashboard.handleAcceptCitation
  by_cases hm : Dashboard.memId st.accepted c.id = true
  · rw [if_pos hm]
    exact hd
  · rw [if_neg hm]
    unfold Dashboard.disjointB at hd ⊢
    rw [List.all_append]
    rw [hd]
    simp [hc]

theorem dismiss_preserves_disjoint {st : Dashboard.DashState} {c : Dashboard.DashCitation}
    (hd : Dashboard.disjointB st = true) :
    Dashboard.disjointB (Dashboard.handleDismissCitation st c) = true := by
  unfold Dashboard.handleDismissCitation Dashboard.disjointB
  rw [List.all_eq_true]
  intro a ha
  have hmem := List.mem_filter.mp ha
  have hane : (a.id == c.id) = false := by
    have := hmem.2
    simpa [bne] using this
  have hadis : Dashboard.memId st.dismissed a.id = false := by
    unfold Dashboard.disjointB at hd
    rw [List.all_eq_true] at hd
    have := hd a hmem.1
    simpa using this
  unfold Dashboard.memId at hadis ⊢
  rw [List.any_append]
  rw [hadis]
  simp only [Bool.false_or, List.any_cons, List.any_nil, Bool.or_false]
  have : (c.id == a.id) = false := by
    rw [beq_eq_false_iff_ne] at hane ⊢
    exact fun h => hane h.symm
  rw [this]
  rfl

theorem guarded_fold :
    ∀ (ops : List Dashboard.DashOp) (st : Dashboard.DashState),
      Dashboard.disjointB st = true → Dashboard.guardedFrom st ops = true →
      Dashboard.disjointB (ops.foldl Dashboard.applyOp st) = true := by
  intro ops
  induction ops with
  | nil =>
    intro st hd _
    exact hd
  | cons op rest ih =>
    intro st hd hg
    rcases op with c | c
    · unfold Dashboard.guardedFrom at hg
      rw [Bool.and_eq_true] at hg
      have hc : Dashboard.memId st.dismissed c.id = false := by
        have := hg.1
        simpa using this
      rw [List.foldl_cons]
      exact ih _ (accept_preserves_disjoint hd hc) hg.2
    · unfold Dashboard.guardedFrom at hg
      rw [List.foldl_cons]
      exact ih _ (dismiss_preserves_disjoint hd) hg

/-- C8 amended: the dismiss handler removes the citation id from the accepted
set, and the accept handler only adds ids, so along any operation sequence in
which no citation is accepted while its id is currently dismissed (the only
sequences the dashboard UI produces, since dismissed suggestions are filtered
out of the acceptance list), the accepted and dismissed id sets stay disjoint;
an accept of a currently dismissed id breaks the invariant, as the
counterexample shows. -/
theorem guarded_runs_keep_sets_disjoint (ops : List Dashboard.DashOp)
    (h : Dashboard.guardedFrom ⟨[], []⟩ ops = true) :
    Dashboard.disjointB (Dashboard.runOps ops) = true :=
  guarded_fold ops ⟨[], []⟩ rfl h

/-- C8 amended witness: accept one citation, dismiss it, then accept another. -/
theorem guarded_runs_keep_sets_disjoint_witness :
    Dashboard.guardedFrom ⟨[], []⟩
        [Dashboard.DashOp.accept ⟨strL "a"⟩,
         Dashboard.DashOp.dismiss ⟨strL "a"⟩,
         Dashboard.DashOp.accept ⟨strL "b"⟩] = true
    ∧ Dashboard.disjointB
        (Dashboard.runOps
          [Dashboard.DashOp.accept ⟨strL "a"⟩,
           Dashboard.DashOp.dismiss ⟨strL "a"⟩,
           Dashboard.DashOp.accept ⟨strL "b"⟩]) = true :=
  ⟨by decide,
   guarded_runs_keep_sets_disjoint
     [Dashboard.DashOp.accept ⟨strL "a"⟩,
      Dashboard.DashOp.dismiss ⟨strL "a"⟩,
      Dashboard.DashOp.accept ⟨strL "b"⟩] (by decide)⟩

/-! Payment retry loop: C10. -/

namespace Payment

theorem firstSuccess_succ (oracle : Nat → Option VerifyResponse) (attempt f : Nat) :
    firstSuccess oracle attempt (f + 1)
      = if oracleSucc oracle attempt then some attempt
        else firstSuccess oracle (attempt + 1) f := rfl

theorem firstSuccess_ge {oracle : Nat → Option VerifyResponse} :
    ∀ (fuel s a : Nat), firstSuccess oracle s fuel = some a →
      s ≤ a ∧ a < s + fuel ∧ oracleSucc oracle a = true := by
  intro fuel
  induction fuel with
  | zero =>
    intro s a h
    exact absurd h (by simp [firstSuccess])
  | succ f ih =>
    intro s a h
    rw [firstSuccess_succ] at h
    by_cases hs : oracleSucc oracle s = true
    · rw [if_pos hs] at h
      have ha : s = a := Option.some.inj h
      subst ha
      exact ⟨Nat.le_refl s, by omega, hs⟩
    · rw [if_neg hs] at h
      have := ih (s + 1) a h
      exact ⟨by omega, by omega, this.2.2⟩

theorem firstSuccess_none {oracle : Nat → Option VerifyResponse} :
    ∀ (fuel s : Nat), firstSuccess oracle s fuel = none →
      ∀ k, s ≤ k → k < s + fuel → oracleSucc oracle k = false := by
  intro fuel
  induction fuel with
  | zero =>
    intro s _ k h1 h2
    omega
  | succ f ih =>
    intro s h k h1 h2
    rw [firstSuccess_succ] at h
    by_cases hs : oracleSucc oracle s = true
    · rw [if_pos hs] at h
      exact absurd h (by simp)
    · rw [if_neg hs] at h
      by_cases hk : k = s
      · subst hk
        simpa using hs
      · exact ih (s + 1) h k (by omega) (by omega)

theorem waitsFor_zero (a m : Nat) (h : m < a) : waitsFor a m = [] := by
  unfold waitsFor
  rw [show m + 1 - a = 0 from by omega]
  rfl

theorem waitsFor_cons (a m : Nat) (h : a ≤ m) :
    waitsFor a m = (if 1 < a then [2000 * a] else []) ++ waitsFor (a + 1) m := by
  unfold waitsFor
  rw [show m + 1 - a = (m + 1 - (a + 1)) + 1 from by omega, List.range'_succ]
  rw [List.filter_cons]
  by_cases h1 : 1 < a
  · simp [h1]
  · simp [h1]

theorem waitsFor_self (a : Nat) :
    waitsFor a a = if 1 < a then [2000 * a] else [] := by
  rw [waitsFor_cons a a (Nat.le_refl a), waitsFor_zero (a + 1) a (by omega)]
  simp

theorem verifyLoop_succ (oracle : Nat → Option VerifyResponse)
    (maxRetries fuel attempt : Nat) :
    verifyLoop oracle maxRetries (fuel + 1) attempt
      = if attempt > maxRetries then ⟨false, 0, []⟩
        else if oracleSucc oracle attempt then
          ⟨true, 1, if attempt > 1 then [2000 * attempt] else []⟩
        else if attempt = maxRetries then
          ⟨false, 1, if attempt > 1 then [2000 * attempt] else []⟩
        else
          ⟨(verifyLoop oracle maxRetries fuel (attempt + 1)).result,
           (verifyLoop oracle maxRetries fuel (attempt + 1)).calls + 1,
           (if attempt > 1 then [2000 * attempt] else [])
             ++ (verifyLoop oracle maxRetries fuel (attempt + 1)).waits⟩ := rfl

theorem verifyLoop_eq (oracle : Nat → Option VerifyResponse) (maxRetries : Nat) :
    ∀ (fuel attempt : Nat), 1 ≤ attempt → attempt + fuel = maxRetries + 1 →
      verifyLoop oracle maxRetries fuel attempt
        = (match firstSuccess oracle attempt fuel with
           | some a => ⟨true, a + 1 - attempt, waitsFor attempt a⟩
           | none => ⟨false, fuel, waitsFor attempt maxRetries⟩) := by
  intro fuel
  induction fuel with
  | zero =>
    intro attempt h1 h2
    have hfs : firstSuccess oracle attempt 0 = none := rfl
    rw [hfs]
    unfold verifyLoop
    rw [waitsFor_zero attempt maxRetries (by omega)]
  | succ f ih =>
    intro attempt h1 h2
    rw [verifyLoop_succ, firstSuccess_succ]
    rw [if_neg (show ¬ attempt > maxRetries from by omega)]
    by_cases hs : oracleSucc oracle attempt = true
    · rw [if_pos hs, if_pos hs]
      dsimp only
      rw [waitsFor_self]
      rw [show attempt + 1 - attempt = 1 from by omega]
    · rw [if_neg hs, if_neg hs]
      by_cases heq : attempt = maxRetries
      · have hf : f = 0 := by omega
        subst hf
        rw [if_pos heq]
        have hfs : firstSuccess oracle (attempt + 1) 0 = none := rfl
        rw [hfs]
        dsimp only
        rw [show maxRetries = attempt from heq.symm, waitsFor_self]
      · rw [if_neg heq]
        rw [ih (attempt + 1) (by omega) (by omega)]
        rcases hfs : firstSuccess oracle (attempt + 1) f with _ | a
        · dsimp only
          rw [waitsFor_cons attempt maxRetries (by omega)]
        · dsimp only
          have hb := firstSuccess_ge f (attempt + 1) a hfs
          rw [waitsFor_cons attempt a (by omega)]
          rw [show a + 1 - (attempt + 1) + 1 = a + 1 - attempt from by omega]

theorem waitsFor_one (j : Nat) (h : 1 ≤ j) :
    waitsFor 1 j = (List.range' 2 (j - 1)).map (fun k => 2000 * k) := by
  rw [waitsFor_cons 1 j h]
  rw [if_neg (by omega), List.nil_append]
  unfold waitsFor
  rw [show j + 1 - 2 = j - 1 from by omega]
  rw [List.filter_eq_self.mpr]
  intro k hk
  have hk2 := (List.mem_range'_1.mp hk).1
  simp only [decide_eq_true_eq]
  omega

end Payment

/-- C10: with maxRetries at least one (the default is three), the retry loop
calls the remote verification at most maxRetries times, waits two thousand
times the attempt number in milliseconds before every attempt after the first,
returns true exactly when some attempt within the bound has a successful
response, stops at the first successful attempt, and after a final
unsuccessful attempt returns false having made exactly maxRetries calls. -/
theorem verify_payment_retry_spec (oracle : Nat → Option Payment.VerifyResponse)
    (maxRetries : Nat) (h : 1 ≤ maxRetries) :
    Payment.defaultMaxRetries = 3
    ∧ (Payment.verifyPaymentWithRetry oracle maxRetries).calls ≤ maxRetries
    ∧ (Payment.verifyPaymentWithRetry oracle maxRetries).waits
        = (List.range' 2 ((Payment.verifyPaymentWithRetry oracle maxRetries).calls - 1)).map
            (fun k => 2000 * k)
    ∧ ((Payment.verifyPaymentWithRetry oracle maxRetries).result = true ↔
        ∃ a, 1 ≤ a ∧ a ≤ maxRetries ∧ Payment.oracleSucc oracle a = true)
    ∧ (∀ a, Payment.firstSuccess oracle 1 maxRetries = some a →
        (Payment.verifyPaymentWithRetry oracle maxRetries).result = true
        ∧ (Payment.verifyPaymentWithRetry oracle maxRetries).calls = a)
    ∧ (Payment.firstSuccess oracle 1 maxRetries = none →
        (Payment.verifyPaymentWithRetry oracle maxRetries).result = false
        ∧ (Payment.verifyPaymentWithRetry oracle maxRetries).calls = maxRetries) := by
  have hchar := Payment.verifyLoop_eq oracle maxRetries maxRetries 1 (Nat.le_refl 1)
    (by omega)
  unfold Payment.verifyPaymentWithRetry
  rcases hfs : Payment.firstSuccess oracle 1 maxRetries with _ | a
  · rw [hfs] at hchar
    dsimp only at hchar
    rw [hchar]
    refine ⟨rfl, Nat.le_refl _, ?_, ?_, ?_, ?_⟩
    · exact Payment.waitsFor_one maxRetries h
    · constructor
      · intro hres
        exact absurd hres (by simp)
      · intro hex
        rcases hex with ⟨a, ha1, ha2, ha3⟩
        have := Payment.firstSuccess_none maxRetries 1 hfs a ha1 (by omega)
        rw [this] at ha3
        exact absurd ha3 (by simp)
    · intro a ha
      exact absurd ha (by simp)
    · intro _
      exact ⟨rfl, rfl⟩
  · rw [hfs] at hchar
    dsimp only at hchar
    have hb := Payment.firstSuccess_ge maxRetries 1 a hfs
    have ha1 : a + 1 - 1 = a := by omega
    rw [ha1] at hchar
    rw [hchar]
    refine ⟨rfl, by dsimp only; omega, ?_, ?_, ?_, ?_⟩
    · exact Payment.waitsFor_one a hb.1
    · constructor
      · intro _
        exact ⟨a, hb.1, by omega, hb.2.2⟩
      · intro _
        rfl
    · intro b hbeq
      have hab : a = b := Option.some.inj hbeq
      subst hab
      exact ⟨rfl, rfl⟩
    · intro hcon
      exact absurd hcon (by simp)

/-- C10 witness: the first call throws, the second call succeeds, with the
default bound of three retries. -/
theorem verify_payment_retry_spec_witness :
    1 ≤ 3
    ∧ (Payment.defaultMaxRetries = 3
      ∧ (Payment.verifyPaymentWithRetry
          (fun a => if a = 2 then some ⟨some (strL "success"), none, none⟩ else none)
          3).calls ≤ 3
      ∧ (Payment.verifyPaymentWithRetry
          (fun a => if a = 2 then some ⟨some (strL "success"), none, none⟩ else none)
          3).waits
          = (List.range' 2 ((Payment.verifyPaymentWithRetry
              (fun a => if a = 2 then some ⟨some (strL "success"), none, none⟩ else none)
              3).calls - 1)).map (fun k => 2000 * k)
      ∧ ((Payment.verifyPaymentWithRetry
          (fun a => if a = 2 then some ⟨some (strL "success"), none, none⟩ else none)
          3).result = true ↔
          ∃ a, 1 ≤ a ∧ a ≤ 3 ∧ Payment.oracleSucc
            (fun a => if a = 2 then some ⟨some (strL "success"), none, none⟩ else none)
            a = true)
      ∧ (∀ a, Payment.firstSuccess
            (fun a => if a = 2 then some ⟨some (strL "success"), none, none⟩ else none)
            1 3 = some a →
          (Payment.verifyPaymentWithRetry
            (fun a => if a = 2 then some ⟨some (strL "success"), none, none⟩ else none)
            3).result = true
          ∧ (Payment.verifyPaymentWithRetry
              (fun a => if a = 2 then some ⟨some (strL "success"), none, none⟩ else none)
              3).calls = a)
      ∧ (Payment.firstSuccess
            (fun a => if a = 2 then some ⟨some (strL "success"), none, none⟩ else none)
            1 3 = none →
          (Payment.verifyPaymentWithRetry
            (fun a => if a = 2 then some ⟨some (strL "success"), none, none⟩ else none)
            3).result = false
          ∧ (Payment.verifyPaymentWithRetry
              (fun a => if a = 2 then some ⟨some (strL "success"), none, none⟩ else none)
              3).calls = 3)) :=
  ⟨by decide,
   verify_payment_retry_spec
     (fun a => if a = 2 then some ⟨some (strL "success"), none, none⟩ else none)
     3 (by decide)⟩
